import Mathlib

/-!
Shallow embedding of `src/eq_dkp_spell_tracker.py`.

Lines are modelled as `List Char`.  The Python functions are translated as
follows:

* the filesystem is not modelled: `extract_dates_from_log` and `parse_log`
  take the already-read list of lines (the spec's `parse(fileContents, ...)`
  boundary); the `FileNotFoundError` handler and all `print` calls
  (including the `debug` output) are outside this boundary and are omitted;
* an uncaught Python exception (`ValueError` from `datetime.strptime` or
  from the `datetime` constructor) is modelled by `Except.error ()`;
* `re.match(r"\[([A-Za-z]{3}) (\w{3}) (\d{2}) (\d{2}):(\d{2}):(\d{2}) (\d{4})\]", line)`
  is `coarseMatch` (the pattern is fixed-width, so the match is
  deterministic; `\w` is approximated by ASCII alphanumerics and `_`,
  as log lines are ASCII);
* `datetime.strptime(..., '%b %d %Y').date()` on the matched groups is
  `groupsDate`: a case-insensitive month-abbreviation lookup (an unknown
  month raises), the `%d` token class, and the `datetime` constructor's
  range validation (day out of range for month, year 0 raise);
* `datetime.strptime(..., '%a %b %d %H:%M:%S %Y')` on
  `line.split(']')[0][1:]` is `castTimestamp`.  CPython compiles this
  format to the regex pieces `%a`/`%b` = 3-letter abbreviation
  (case-insensitive), `%d` = `3[01]|[12]\d|0[1-9]|[1-9]`,
  `%H` = `2[0-3]|[0-1]\d|\d`, `%M` = `[0-5]\d|\d`, `%S` = `6[0-1]|[0-5]\d|\d`,
  `%Y` = `\d\d\d\d`, a space = `\s+`, and requires the whole string to be
  consumed; each token is followed by a delimiter no token character can
  match, so the backtracking search is equivalent to the deterministic
  maximal-munch parser written here;
* `re.search(r"You have become better at (.+?)! \((\d+)\)", line)` is
  `skillupSearch`: earliest start position wins, the lazy `(.+?)` group is
  grown one character at a time (never across `\n`, since `.` does not
  match a newline), and `(\d+)\)` is a maximal digit run followed by `)`.
-/

/-! ### Characters and substrings -/

abbrev LC := List Char

/-- `needle` is a prefix of `hay` (`str.startswith`). -/
def isPre : LC → LC → Bool
  | [], _ => true
  | _ :: _, [] => false
  | a :: as, b :: bs => a == b && isPre as bs

/-- Python's `needle in hay` substring test. -/
def containsSub (needle : LC) : LC → Bool
  | [] => isPre needle []
  | c :: rest => isPre needle (c :: rest) || containsSub needle rest

/-- ASCII word character, the `\w` class of the coarse pattern. -/
def pyWord (c : Char) : Bool := c.isAlphanum || c == '_'

/-- Python `\s` whitespace (ASCII part). -/
def isPyWs (c : Char) : Bool :=
  c == ' ' || c == '\t' || c == '\n' || c == '\r' || c == '\x0b' || c == '\x0c'

def digitVal (c : Char) : Nat := c.toNat - 48

def digitsToNat (l : LC) : Nat := l.foldl (fun a c => 10 * a + digitVal c) 0

/-- Maximal leading digit run of a string. -/
def takeDigits : LC → (LC × LC)
  | [] => ([], [])
  | c :: rest =>
    if c.isDigit then
      let (ds, r) := takeDigits rest
      (c :: ds, r)
    else ([], c :: rest)

/-! ### Dates and datetimes (`datetime.date` / `datetime.datetime`) -/

structure Date where
  year : Nat
  month : Nat
  day : Nat
deriving DecidableEq

structure DateTime where
  date : Date
  hour : Nat
  minute : Nat
  second : Nat
deriving DecidableEq

def isLeap (y : Nat) : Bool := y % 4 == 0 && (y % 100 != 0 || y % 400 == 0)

def daysInMonth (y m : Nat) : Nat :=
  if m == 2 then (if isLeap y then 29 else 28)
  else if m == 4 || m == 6 || m == 9 || m == 11 then 30
  else 31

/-- Days of the proleptic Gregorian calendar before January 1 of year `y`
(as in `datetime.date.toordinal`). -/
def daysBeforeYear (y : Nat) : Nat :=
  (y - 1) * 365 + (y - 1) / 4 - (y - 1) / 100 + (y - 1) / 400

def daysBeforeMonth (y m : Nat) : Nat :=
  ((List.range (m - 1)).map (fun i => daysInMonth y (i + 1))).sum

/-- `datetime.date.toordinal`. -/
def toOrdinal (d : Date) : Nat :=
  daysBeforeYear d.year + daysBeforeMonth d.year d.month + d.day

/-- Absolute second count of a datetime; differences of this value are
`(t2 - t1).total_seconds()` (always a whole number here). -/
def toSecs (t : DateTime) : Int :=
  Int.ofNat (toOrdinal t.date * 86400 + t.hour * 3600 + t.minute * 60 + t.second)

/-- The `datetime.date` constructor's validation: `MINYEAR <= year <= MAXYEAR`,
month 1..12, day within the month.  Failure raises `ValueError`. -/
def mkDate (y m d : Nat) : Except Unit Date :=
  if 1 ≤ y ∧ y ≤ 9999 ∧ 1 ≤ m ∧ m ≤ 12 ∧ 1 ≤ d ∧ d ≤ daysInMonth y m then
    .ok ⟨y, m, d⟩
  else .error ()

/-- The `datetime.datetime` constructor's validation. -/
def mkDateTime (y m d h mi s : Nat) : Except Unit DateTime :=
  match mkDate y m d with
  | .error e => .error e
  | .ok dt => if h ≤ 23 ∧ mi ≤ 59 ∧ s ≤ 59 then .ok ⟨dt, h, mi, s⟩ else .error ()

/-! ### The coarse timestamp pattern (the `re.match` of both functions) -/

/-- The seven groups of
`\[([A-Za-z]{3}) (\w{3}) (\d{2}) (\d{2}):(\d{2}):(\d{2}) (\d{4})\]`. -/
structure CoarseG where
  wd : LC
  mon : LC
  dd : LC
  hh : LC
  mi : LC
  ss : LC
  yyyy : LC
deriving DecidableEq

/-- `re.match` of the coarse pattern against the start of a line.  The
pattern is entirely fixed-width, so it matches at exactly one layout. -/
def coarseMatch : LC → Option CoarseG
  | '[' :: w1 :: w2 :: w3 :: ' ' :: b1 :: b2 :: b3 :: ' ' :: d1 :: d2 :: ' ' ::
      h1 :: h2 :: ':' :: m1 :: m2 :: ':' :: s1 :: s2 :: ' ' ::
      y1 :: y2 :: y3 :: y4 :: ']' :: _ =>
    if w1.isAlpha && w2.isAlpha && w3.isAlpha &&
        pyWord b1 && pyWord b2 && pyWord b3 &&
        d1.isDigit && d2.isDigit && h1.isDigit && h2.isDigit &&
        m1.isDigit && m2.isDigit && s1.isDigit && s2.isDigit &&
        y1.isDigit && y2.isDigit && y3.isDigit && y4.isDigit then
      some ⟨[w1, w2, w3], [b1, b2, b3], [d1, d2], [h1, h2], [m1, m2], [s1, s2],
            [y1, y2, y3, y4]⟩
    else none
  | _ => none

def monthAbbrevs : List LC :=
  (["jan", "feb", "mar", "apr", "may", "jun",
    "jul", "aug", "sep", "oct", "nov", "dec"].map String.data)

/-- Case-insensitive `%b` month-abbreviation lookup. -/
def monthLookup (s : LC) : Option Nat :=
  ((monthAbbrevs.findIdx? (fun a => a == s.map Char.toLower)).map (fun i => i + 1))

/-- `datetime.strptime(f"{g2} {g3} {g7}", '%b %d %Y').date()` on the coarse
groups: month group 2, day group 3 (two digits), year group 7.  The weekday
group is never consulted.  Any failure is a raised `ValueError`. -/
def groupsDate (g : CoarseG) : Except Unit Date :=
  match monthLookup g.mon with
  | none => .error ()
  | some m => mkDate (digitsToNat g.yyyy) m (digitsToNat g.dd)

/-- Leading-timestamp date of a line: `.ok none` when the coarse pattern does
not match (the line is silently "no timestamp"), `.ok (some d)` on success,
`.error` when `strptime`/`date` raises on the matched groups. -/
def lineDate (line : LC) : Except Unit (Option Date) :=
  match coarseMatch line with
  | none => .ok none
  | some g =>
    match groupsDate g with
    | .error e => .error e
    | .ok d => .ok (some d)

/-! ### `extract_dates_from_log` -/

def dateLtb (a b : Date) : Bool :=
  a.year < b.year ||
    (a.year == b.year &&
      (a.month < b.month || (a.month == b.month && a.day < b.day)))

/-- Insert into a descending-sorted duplicate-free list (the `set` plus
`sorted(..., reverse=True)` of the source, fused). -/
def insertDateDesc (d : Date) : List Date → List Date
  | [] => [d]
  | e :: rest =>
    if d = e then e :: rest
    else if dateLtb e d then d :: e :: rest
    else e :: insertDateDesc d rest

def datesScan (acc : List Date) : List LC → Except Unit (List Date)
  | [] => .ok acc
  | l :: ls =>
    match lineDate l with
    | .error e => .error e
    | .ok none => datesScan acc ls
    | .ok (some d) => datesScan (insertDateDesc d acc) ls

/-- `extract_dates_from_log`, over the file's lines: the distinct calendar
dates, most recent first.  An uncaught `ValueError` is `.error`. -/
def extract_dates_from_log (lines : List LC) : Except Unit (List Date) :=
  datesScan [] lines

/-! ### The cast-path `strptime('%a %b %d %H:%M:%S %Y')` -/

def weekdayAbbrevs : List LC :=
  (["mon", "tue", "wed", "thu", "fri", "sat", "sun"].map String.data)

/-- Match a case-insensitive three-letter abbreviation from `valid`,
returning its index and the rest of the input. -/
def parseAbbrev3 (valid : List LC) : LC → Except Unit (Nat × LC)
  | c1 :: c2 :: c3 :: rest =>
    match valid.findIdx? (fun a => a == ([c1, c2, c3].map Char.toLower)) with
    | some i => .ok (i, rest)
    | none => .error ()
  | _ => .error ()

def dropWs : LC → LC
  | [] => []
  | c :: rest => if isPyWs c then dropWs rest else c :: rest

/-- A space in the format string matches `\s+`: at least one whitespace
character, maximal munch. -/
def parseWs : LC → Except Unit LC
  | [] => .error ()
  | c :: rest => if isPyWs c then .ok (dropWs rest) else .error ()

/-- `%d`: `3[01]|[12]\d|0[1-9]|[1-9]` — one digit 1-9, or two digits 01-31. -/
def parseDay (l : LC) : Except Unit (Nat × LC) :=
  match takeDigits l with
  | ([c], r) => if c == '0' then .error () else .ok (digitVal c, r)
  | ([c1, c2], r) =>
    let v := 10 * digitVal c1 + digitVal c2
    if 1 ≤ v ∧ v ≤ 31 then .ok (v, r) else .error ()
  | _ => .error ()

/-- `%H`/`%M`/`%S`: any single digit, or two digits up to `maxv`. -/
def parseTwoMax (maxv : Nat) (l : LC) : Except Unit (Nat × LC) :=
  match takeDigits l with
  | ([c], r) => .ok (digitVal c, r)
  | ([c1, c2], r) =>
    let v := 10 * digitVal c1 + digitVal c2
    if v ≤ maxv then .ok (v, r) else .error ()
  | _ => .error ()

/-- `%Y`: exactly four digits. -/
def parseYear4 : LC → Except Unit (Nat × LC)
  | c1 :: c2 :: c3 :: c4 :: rest =>
    if c1.isDigit && c2.isDigit && c3.isDigit && c4.isDigit then
      .ok (digitsToNat [c1, c2, c3, c4], rest)
    else .error ()
  | _ => .error ()

def expectChar (c : Char) : LC → Except Unit LC
  | [] => .error ()
  | d :: rest => if d == c then .ok rest else .error ()

/-- `datetime.strptime(s, '%a %b %d %H:%M:%S %Y')`.  The parsed weekday is
matched but never validated against the date.  The whole string must be
consumed, and the resulting field values go through the `datetime`
constructor's validation. -/
def strptimeCast (s : LC) : Except Unit DateTime := do
  let (_, s) ← parseAbbrev3 weekdayAbbrevs s
  let s ← parseWs s
  let (mIdx, s) ← parseAbbrev3 monthAbbrevs s
  let s ← parseWs s
  let (d, s) ← parseDay s
  let s ← parseWs s
  let (h, s) ← parseTwoMax 23 s
  let s ← expectChar ':' s
  let (mnt, s) ← parseTwoMax 59 s
  let s ← expectChar ':' s
  let (sec, s) ← parseTwoMax 61 s
  let s ← parseWs s
  let (y, s) ← parseYear4 s
  if s = [] then mkDateTime y (mIdx + 1) d h mnt sec else .error ()

/-- `line.split(']')[0]`: the characters before the first `]` (the whole
line when there is none). -/
def beforeRBracket : LC → LC
  | [] => []
  | c :: rest => if c == ']' then [] else c :: beforeRBracket rest

/-- `datetime.strptime(line.split(']')[0][1:], '%a %b %d %H:%M:%S %Y')`. -/
def castTimestamp (line : LC) : Except Unit DateTime :=
  strptimeCast ((beforeRBracket line).drop 1)

/-! ### Event phrases -/

def expPhrase : LC := "You gain party experience".data

def castPhrase1 : LC := "You begin casting".data

def castPhrase2 : LC := "Your spell fizzles".data

def castPhrase3 : LC := "Beginning to memorize".data

def isCastLine (line : LC) : Bool :=
  containsSub castPhrase1 line || containsSub castPhrase2 line ||
    containsSub castPhrase3 line

/-! ### The skill-up pattern
`re.search(r"You have become better at (.+?)! \((\d+)\)", line)` -/

def skillPhrase : LC := "You have become better at ".data

def bangParen : LC := "! (".data

/-- `(\d+)\)`: a nonempty maximal digit run directly followed by `)`. -/
def parseLevelParen (l : LC) : Option Nat :=
  match takeDigits l with
  | ([], _) => none
  | (ds, r) =>
    match r with
    | ')' :: _ => some (digitsToNat ds)
    | _ => none

/-- The lazy `(.+?)! \((\d+)\)` part, after the literal phrase: grow the
capture one character at a time (a newline can never be captured, `.` does
not match it), and at each length check for `! (` followed by digits and
`)`. -/
def innerSkill (cap : LC) : LC → Option (LC × Nat)
  | [] => none
  | c :: rest =>
    if c == '\n' then none
    else
      let cap2 := cap ++ [c]
      if isPre bangParen rest then
        match parseLevelParen (rest.drop 3) with
        | some n => some (cap2, n)
        | none => innerSkill cap2 rest
      else innerSkill cap2 rest

/-- `re.search`: try every start position left to right; at a position where
the literal phrase matches, run the lazy tail; on failure move one
character right. -/
def skillupSearch : LC → Option (LC × Nat)
  | [] => none
  | c :: rest =>
    if isPre skillPhrase (c :: rest) then
      match innerSkill [] ((c :: rest).drop skillPhrase.length) with
      | some r => some r
      | none => skillupSearch rest
    else skillupSearch rest

/-! ### The parse state and loop of `parse_log` -/

/-- The local variables of `parse_log` that the loop mutates. -/
structure St where
  total_active_time : Int
  total_afk_time : Int
  first_cast_time : Option DateTime
  last_cast_time : Option DateTime
  last_timestamp : Option DateTime
  skillups : List (LC × Nat × Nat)
  experience_count : Nat
deriving DecidableEq

def initSt : St := ⟨0, 0, none, none, none, [], 0⟩

/-- The skill dictionary update: first occurrence inserts
`start = end = level`, later occurrences set only `end` (insertion order
preserved, as for a Python dict). -/
def updSkill (m : List (LC × Nat × Nat)) (k : LC) (lvl : Nat) :
    List (LC × Nat × Nat) :=
  match m with
  | [] => [(k, lvl, lvl)]
  | (k', s, e) :: rest =>
    if k' = k then (k', s, lvl) :: rest else (k', s, e) :: updSkill rest k lvl

def lookupSkill (m : List (LC × Nat × Nat)) (k : LC) : Option (Nat × Nat) :=
  match m with
  | [] => none
  | (k', s, e) :: rest => if k' = k then some (s, e) else lookupSkill rest k

/-- The spell-casting block of the loop, once the timestamp is in hand. -/
def castUpdate (st : St) (t : DateTime) : St :=
  let first :=
    match st.first_cast_time with
    | none => some t
    | some f => some f
  let acc :=
    match st.last_timestamp with
    | none => (st.total_active_time, st.total_afk_time)
    | some p =>
      let diff := toSecs t - toSecs p
      if diff ≤ 120 then (st.total_active_time + diff, st.total_afk_time)
      else (st.total_active_time, st.total_afk_time + diff)
  { st with
    total_active_time := acc.1
    total_afk_time := acc.2
    first_cast_time := first
    last_cast_time := some t
    last_timestamp := some t }

/-- The cast-attempt check and block: a matching line has its timestamp
parsed (an unparseable one raises) and the aggregator updated. -/
def castStep (st : St) (line : LC) : Except Unit St :=
  if isCastLine line then
    match castTimestamp line with
    | .error e => .error e
    | .ok t => .ok (castUpdate st t)
  else .ok st

/-- The skill-up check, reached whether or not the cast block fired. -/
def skillStep (st : St) (line : LC) : St :=
  match skillupSearch line with
  | some (n, l) => { st with skillups := updSkill st.skillups n l }
  | none => st

/-- The loop body after the date filter: the experience check `continue`s,
otherwise the cast block and then the skill-up check run in sequence. -/
def processBody (st : St) (line : LC) : Except Unit St :=
  if containsSub expPhrase line then
    .ok { st with experience_count := st.experience_count + 1 }
  else
    match castStep st line with
    | .error e => .error e
    | .ok st1 => .ok (skillStep st1 line)

/-- One iteration of the `for line in lines` loop: coarse-match the leading
timestamp, on a match compute its date (which may raise) and `continue`
when it differs from the selected date; then classify. -/
def processLine (sel : Date) (st : St) (line : LC) : Except Unit St :=
  match lineDate line with
  | .error e => .error e
  | .ok (some d) => if d = sel then processBody st line else .ok st
  | .ok none => processBody st line

def runLines (sel : Date) (st : St) : List LC → Except Unit St
  | [] => .ok st
  | l :: ls =>
    match processLine sel st l with
    | .ok st' => runLines sel st' ls
    | .error e => .error e

/-- The tuple `parse_log` returns. -/
structure Report where
  total_active_time : Int
  total_afk_time : Int
  first_cast_time : Option DateTime
  last_cast_time : Option DateTime
  skillups : List (LC × Nat × Nat)
  experience_count : Nat
  total_log_entries : Nat
deriving DecidableEq

/-- `parse_log(file_name, selected_date)` over the file's lines.  An
uncaught exception in the loop is `.error` (the run aborts, nothing is
returned). -/
def parse_log (sel : Date) (lines : List LC) : Except Unit Report :=
  match runLines sel initSt lines with
  | .error e => .error e
  | .ok s =>
    .ok ⟨s.total_active_time, s.total_afk_time, s.first_cast_time,
         s.last_cast_time, s.skillups, s.experience_count, lines.length⟩

/-! ### Instrumentation: the classified event streams of a run -/

/-- The cast-attempt timestamp a line would register after the date filter:
`none` when the experience check diverts the line, when no cast phrase is
present, or when the timestamp fails to parse (that last case aborts the
run, so it never coexists with a successful step). -/
def lineCastCore (line : LC) : Option DateTime :=
  if containsSub expPhrase line then none
  else if isCastLine line then (castTimestamp line).toOption else none

def lineCastTime (sel : Date) (line : LC) : Option DateTime :=
  match lineDate line with
  | .error _ => none
  | .ok (some d) => if d = sel then lineCastCore line else none
  | .ok none => lineCastCore line

/-- Timestamps of the cast-attempt events a run registers, in file order. -/
def castTimes (sel : Date) (lines : List LC) : List DateTime :=
  lines.filterMap (lineCastTime sel)

def lineSkillCore (line : LC) : Option (LC × Nat) :=
  if containsSub expPhrase line then none else skillupSearch line

def lineSkillEvent (sel : Date) (line : LC) : Option (LC × Nat) :=
  match lineDate line with
  | .error _ => none
  | .ok (some d) => if d = sel then lineSkillCore line else none
  | .ok none => lineSkillCore line

/-- The skill-up events a run registers, in file order. -/
def skillEvents (sel : Date) (lines : List LC) : List (LC × Nat) :=
  lines.filterMap (lineSkillEvent sel)

def foldUpd (m : List (LC × Nat × Nat)) (evs : List (LC × Nat)) :
    List (LC × Nat × Nat) :=
  evs.foldl (fun m e => updSkill m e.1 e.2) m

/-- Levels reported for skill `k`, in file order. -/
def skillLevels (sel : Date) (lines : List LC) (k : LC) : List Nat :=
  ((skillEvents sel lines).filter (fun e => decide (e.1 = k))).map (fun e => e.2)

/-- `first_cast_time` evolution: keep the current value once set, else the
first event of the stream. -/
def firstD (cur : Option DateTime) (ts : List DateTime) : Option DateTime :=
  match cur with
  | some f => some f
  | none => ts.head?

/-- `last_cast_time` / `last_timestamp` evolution: the most recent event. -/
def lastD : List DateTime → Option DateTime → Option DateTime
  | [], cur => cur
  | t :: ts, _ => lastD ts (some t)

/-- One aggregator step on a cast timestamp (the gap/threshold rule). -/
def aggStep (acc : Int × Int) (prev : Option DateTime) (t : DateTime) :
    Int × Int :=
  match prev with
  | none => acc
  | some p =>
    let diff := toSecs t - toSecs p
    if diff ≤ 120 then (acc.1 + diff, acc.2) else (acc.1, acc.2 + diff)

def aggFold (acc : Int × Int) (prev : Option DateTime) :
    List DateTime → Int × Int
  | [] => acc
  | t :: ts => aggFold (aggStep acc prev t) (some t) ts

/-- The elapsed-seconds gap a step would compute, when it computes one. -/
def stepGap (sel : Date) (st : St) (line : LC) : Option Int :=
  match lineCastTime sel line, st.last_timestamp with
  | some t, some p => some (toSecs t - toSecs p)
  | _, _ => none

/-- The gaps computed along a run, in order. -/
def runGaps (sel : Date) (st : St) : List LC → List Int
  | [] => []
  | l :: ls =>
    match processLine sel st l with
    | .ok st' => (stepGap sel st l).toList ++ runGaps sel st' ls
    | .error _ => []

/-! ### Step lemmas -/

theorem skillStep_fields (st : St) (line : LC) :
    (skillStep st line).total_active_time = st.total_active_time ∧
    (skillStep st line).total_afk_time = st.total_afk_time ∧
    (skillStep st line).first_cast_time = st.first_cast_time ∧
    (skillStep st line).last_cast_time = st.last_cast_time ∧
    (skillStep st line).last_timestamp = st.last_timestamp ∧
    (skillStep st line).experience_count = st.experience_count := by
  rcases h : skillupSearch line with _ | ⟨n, l⟩ <;> simp [skillStep, h]

theorem castUpdate_skillups (st : St) (t : DateTime) :
    (castUpdate st t).skillups = st.skillups := rfl

theorem castUpdate_exp (st : St) (t : DateTime) :
    (castUpdate st t).experience_count = st.experience_count := rfl

theorem skillStep_skillups (st : St) (line : LC) :
    (skillStep st line).skillups =
      match skillupSearch line with
      | some (n, l) => updSkill st.skillups n l
      | none => st.skillups := by
  rcases h : skillupSearch line with _ | ⟨n, l⟩ <;> simp [skillStep, h]

/-- Cast-state fields are untouched by a successful step that registers no
cast event. -/
theorem bodyCastNone (st st' : St) (line : LC)
    (h : processBody st line = .ok st') (hc : lineCastCore line = none) :
    st'.total_active_time = st.total_active_time ∧
    st'.total_afk_time = st.total_afk_time ∧
    st'.first_cast_time = st.first_cast_time ∧
    st'.last_cast_time = st.last_cast_time ∧
    st'.last_timestamp = st.last_timestamp := by
  unfold processBody at h
  by_cases he : containsSub expPhrase line = true
  · rw [if_pos he] at h
    cases h
    simp
  · rw [if_neg he] at h
    unfold lineCastCore at hc
    rw [if_neg he] at hc
    unfold castStep at h
    by_cases hcast : isCastLine line = true
    · rw [if_pos hcast] at h hc
      cases ht : castTimestamp line with
      | error e => rw [ht] at h; cases h
      | ok t => rw [ht] at hc; simp [Except.toOption] at hc
    · rw [if_neg hcast] at h
      cases h
      exact ⟨(skillStep_fields st line).1, (skillStep_fields st line).2.1,
        (skillStep_fields st line).2.2.1, (skillStep_fields st line).2.2.2.1,
        (skillStep_fields st line).2.2.2.2.1⟩

/-- A successful step that registers a cast event at `t` updates the
cast-state fields exactly as the casting block does. -/
theorem bodyCastSome (st st' : St) (line : LC) (t : DateTime)
    (h : processBody st line = .ok st') (hc : lineCastCore line = some t) :
    st'.total_active_time = (castUpdate st t).total_active_time ∧
    st'.total_afk_time = (castUpdate st t).total_afk_time ∧
    st'.first_cast_time = (castUpdate st t).first_cast_time ∧
    st'.last_cast_time = (castUpdate st t).last_cast_time ∧
    st'.last_timestamp = (castUpdate st t).last_timestamp := by
  unfold processBody at h
  unfold lineCastCore at hc
  by_cases he : containsSub expPhrase line = true
  · rw [if_pos he] at hc; cases hc
  · rw [if_neg he] at h hc
    unfold castStep at h
    by_cases hcast : isCastLine line = true
    · rw [if_pos hcast] at h hc
      cases ht : castTimestamp line with
      | error e => rw [ht] at h; cases h
      | ok t' =>
        rw [ht] at h hc
        simp [Except.toOption] at hc
        subst hc
        cases h
        exact ⟨(skillStep_fields _ line).1, (skillStep_fields _ line).2.1,
          (skillStep_fields _ line).2.2.1, (skillStep_fields _ line).2.2.2.1,
          (skillStep_fields _ line).2.2.2.2.1⟩
    · rw [if_neg hcast] at hc; cases hc

theorem bodySkillups (st st' : St) (line : LC)
    (h : processBody st line = .ok st') :
    st'.skillups =
      match lineSkillCore line with
      | some (n, l) => updSkill st.skillups n l
      | none => st.skillups := by
  unfold processBody at h
  unfold lineSkillCore
  by_cases he : containsSub expPhrase line = true
  · rw [if_pos he] at h
    rw [if_pos he]
    cases h
    simp
  · rw [if_neg he] at h
    rw [if_neg he]
    unfold castStep at h
    by_cases hcast : isCastLine line = true
    · rw [if_pos hcast] at h
      cases ht : castTimestamp line with
      | error e => rw [ht] at h; cases h
      | ok t =>
        rw [ht] at h
        cases h
        rw [skillStep_skillups, castUpdate_skillups]
    · rw [if_neg hcast] at h
      cases h
      rw [skillStep_skillups]

/-- The experience check fires and `continue`s: only the counter changes. -/
theorem bodyExpStep (st : St) (line : LC)
    (he : containsSub expPhrase line = true) :
    processBody st line =
      .ok { st with experience_count := st.experience_count + 1 } := by
  unfold processBody
  rw [if_pos he]

/-- A line with a cast phrase and a skill-up match (and no experience
phrase) registers both events. -/
theorem bodyBothStep (st : St) (line : LC) (t : DateTime) (n : LC) (l : Nat)
    (he : containsSub expPhrase line = false)
    (hcast : isCastLine line = true)
    (ht : castTimestamp line = .ok t)
    (hsk : skillupSearch line = some (n, l)) :
    processBody st line =
      .ok { castUpdate st t with skillups := updSkill st.skillups n l } := by
  unfold processBody castStep skillStep
  rw [he, hcast, ht, hsk]
  simp [castUpdate_skillups]

/-- A skill-up match with no cast phrase and no experience phrase updates
only the skill dictionary. -/
theorem bodySkillOnlyStep (st : St) (line : LC) (n : LC) (l : Nat)
    (he : containsSub expPhrase line = false)
    (hcast : isCastLine line = false)
    (hsk : skillupSearch line = some (n, l)) :
    processBody st line = .ok { st with skillups := updSkill st.skillups n l } := by
  unfold processBody castStep skillStep
  rw [he, hcast, hsk]
  simp

/-- A cast-phrase line whose timestamp fails to parse aborts the step. -/
theorem bodyCastAbort (st : St) (line : LC)
    (he : containsSub expPhrase line = false)
    (hcast : isCastLine line = true)
    (ht : castTimestamp line = .error ()) :
    processBody st line = .error () := by
  unfold processBody castStep
  rw [he, hcast, ht]
  simp

/-- A line whose coarse timestamp parses to a non-selected date is skipped
entirely: the state is returned unchanged. -/
theorem stepSkip (sel d : Date) (st : St) (line : LC)
    (h1 : lineDate line = .ok (some d)) (h2 : d ≠ sel) :
    processLine sel st line = .ok st := by
  simp [processLine, h1, h2]

/-- A line that is not date-filtered runs the classification body. -/
theorem stepSurvive (sel : Date) (st : St) (line : LC)
    (hs : lineDate line = .ok none ∨ lineDate line = .ok (some sel)) :
    processLine sel st line = processBody st line := by
  rcases hs with h | h <;> simp [processLine, h]

theorem procCastNone (sel : Date) (st st' : St) (line : LC)
    (h : processLine sel st line = .ok st')
    (hc : lineCastTime sel line = none) :
    st'.total_active_time = st.total_active_time ∧
    st'.total_afk_time = st.total_afk_time ∧
    st'.first_cast_time = st.first_cast_time ∧
    st'.last_cast_time = st.last_cast_time ∧
    st'.last_timestamp = st.last_timestamp := by
  unfold processLine at h
  unfold lineCastTime at hc
  cases hd : lineDate line with
  | error e => rw [hd] at h; cases h
  | ok o =>
    rw [hd] at h hc
    try simp only [] at h
    try simp only [] at hc
    cases o with
    | none => exact bodyCastNone st st' line h hc
    | some d =>
      try simp only [] at h
      try simp only [] at hc
      by_cases hde : d = sel
      · rw [if_pos hde] at h hc
        exact bodyCastNone st st' line h hc
      · rw [if_neg hde] at h
        cases h
        simp

theorem procCastSome (sel : Date) (st st' : St) (line : LC) (t : DateTime)
    (h : processLine sel st line = .ok st')
    (hc : lineCastTime sel line = some t) :
    st'.total_active_time = (castUpdate st t).total_active_time ∧
    st'.total_afk_time = (castUpdate st t).total_afk_time ∧
    st'.first_cast_time = (castUpdate st t).first_cast_time ∧
    st'.last_cast_time = (castUpdate st t).last_cast_time ∧
    st'.last_timestamp = (castUpdate st t).last_timestamp := by
  unfold processLine at h
  unfold lineCastTime at hc
  cases hd : lineDate line with
  | error e => rw [hd] at h; cases h
  | ok o =>
    rw [hd] at h hc
    try simp only [] at h
    try simp only [] at hc
    cases o with
    | none => exact bodyCastSome st st' line t h hc
    | some d =>
      try simp only [] at h
      try simp only [] at hc
      by_cases hde : d = sel
      · rw [if_pos hde] at h hc
        exact bodyCastSome st st' line t h hc
      · rw [if_neg hde] at hc
        cases hc

theorem procSkillups (sel : Date) (st st' : St) (line : LC)
    (h : processLine sel st line = .ok st') :
    st'.skillups =
      match lineSkillEvent sel line with
      | some (n, l) => updSkill st.skillups n l
      | none => st.skillups := by
  unfold processLine at h
  unfold lineSkillEvent
  cases hd : lineDate line with
  | error e => rw [hd] at h; cases h
  | ok o =>
    rw [hd] at h
    try simp only [] at h
    try simp only []
    cases o with
    | none => exact bodySkillups st st' line h
    | some d =>
      try simp only [] at h
      try simp only []
      by_cases hde : d = sel
      · rw [if_pos hde] at h
        rw [if_pos hde]
        exact bodySkillups st st' line h
      · rw [if_neg hde] at h
        rw [if_neg hde]
        cases h
        simp

/-! ### Run-level lemmas -/

theorem firstD_nil (cur : Option DateTime) : firstD cur [] = cur := by
  cases cur <;> rfl

theorem firstD_cons_comp (cur : Option DateTime) (t : DateTime)
    (ts : List DateTime) : firstD (firstD cur [t]) ts = firstD cur (t :: ts) := by
  cases cur <;> rfl

theorem castUpdate_active_afk (st : St) (t : DateTime) :
    ((castUpdate st t).total_active_time, (castUpdate st t).total_afk_time) =
      aggStep (st.total_active_time, st.total_afk_time) st.last_timestamp t := by
  unfold castUpdate aggStep
  cases hp : st.last_timestamp with
  | none => simp
  | some p => by_cases hle : toSecs t - toSecs p ≤ 120 <;> simp [hle]

theorem castUpdate_first (st : St) (t : DateTime) :
    (castUpdate st t).first_cast_time = firstD st.first_cast_time [t] := by
  unfold castUpdate firstD
  cases hf : st.first_cast_time <;> simp

theorem castUpdate_lastc (st : St) (t : DateTime) :
    (castUpdate st t).last_cast_time = some t := rfl

theorem castUpdate_lastts (st : St) (t : DateTime) :
    (castUpdate st t).last_timestamp = some t := rfl

theorem castTimes_cons (sel : Date) (l : LC) (ls : List LC) :
    castTimes sel (l :: ls) =
      match lineCastTime sel l with
      | some t => t :: castTimes sel ls
      | none => castTimes sel ls := by
  simp [castTimes, List.filterMap_cons]
  cases lineCastTime sel l <;> simp

theorem runLines_cons (sel : Date) (st : St) (l : LC) (ls : List LC) :
    runLines sel st (l :: ls) =
      match processLine sel st l with
      | .ok st1 => runLines sel st1 ls
      | .error e => .error e := rfl

theorem runLines_append (sel : Date) (xs : List LC) : ∀ (ys : List LC) (st : St),
    runLines sel st (xs ++ ys) =
      match runLines sel st xs with
      | .ok s1 => runLines sel s1 ys
      | .error e => .error e := by
  induction xs with
  | nil => intro ys st; rfl
  | cons l ls ih =>
    intro ys st
    rw [List.cons_append, runLines_cons, runLines_cons]
    cases hp : processLine sel st l with
    | ok st1 => exact ih ys st1
    | error e => rfl

theorem parse_log_ok_inv (sel : Date) (lines : List LC) (r : Report)
    (h : parse_log sel lines = .ok r) :
    ∃ s, runLines sel initSt lines = .ok s ∧
      r = ⟨s.total_active_time, s.total_afk_time, s.first_cast_time,
           s.last_cast_time, s.skillups, s.experience_count, lines.length⟩ := by
  unfold parse_log at h
  cases hr : runLines sel initSt lines with
  | error e => rw [hr] at h; cases h
  | ok s =>
    rw [hr] at h
    cases h
    exact ⟨s, rfl, rfl⟩

theorem parse_log_of_error (sel : Date) (lines : List LC)
    (h : runLines sel initSt lines = .error ()) :
    parse_log sel lines = .error () := by
  unfold parse_log
  rw [h]

/-- Characterization of the aggregator state after a successful run: the
activity totals are the gap fold over the stream of registered cast
timestamps, `first_cast_time` is the first of the stream (unless already
set) and `last_cast_time`/`last_timestamp` track the most recent. -/
theorem runCast (sel : Date) (lines : List LC) : ∀ (st st' : St),
    runLines sel st lines = .ok st' →
    (st'.total_active_time, st'.total_afk_time) =
        aggFold (st.total_active_time, st.total_afk_time) st.last_timestamp
          (castTimes sel lines) ∧
      st'.first_cast_time = firstD st.first_cast_time (castTimes sel lines) ∧
      st'.last_cast_time = lastD (castTimes sel lines) st.last_cast_time ∧
      st'.last_timestamp = lastD (castTimes sel lines) st.last_timestamp := by
  induction lines with
  | nil =>
    intro st st' h
    cases h
    simp [castTimes, aggFold, firstD_nil, lastD]
  | cons l ls ih =>
    intro st st' h
    unfold runLines at h
    cases hp : processLine sel st l with
    | error e => rw [hp] at h; cases h
    | ok st1 =>
      rw [hp] at h
      have ihh := ih st1 st' h
      rw [castTimes_cons]
      cases hc : lineCastTime sel l with
      | none =>
        obtain ⟨f1, f2, f3, f4, f5⟩ := procCastNone sel st st1 l hp hc
        rw [f1, f2, f3, f4, f5] at ihh
        simpa using ihh
      | some t =>
        obtain ⟨f1, f2, f3, f4, f5⟩ := procCastSome sel st st1 l t hp hc
        have ha : (st1.total_active_time, st1.total_afk_time) =
            aggStep (st.total_active_time, st.total_afk_time)
              st.last_timestamp t := by
          rw [f1, f2]; exact castUpdate_active_afk st t
        rw [castUpdate_lastc] at f4
        rw [castUpdate_lastts] at f5
        rw [castUpdate_first] at f3
        obtain ⟨h1, h2, h3, h4⟩ := ihh
        refine ⟨?_, ?_, ?_, ?_⟩
        · show (st'.total_active_time, st'.total_afk_time) =
            aggFold (aggStep (st.total_active_time, st.total_afk_time)
              st.last_timestamp t) (some t) (castTimes sel ls)
          rw [h1, f5, ha]
        · show st'.first_cast_time =
            firstD st.first_cast_time (t :: castTimes sel ls)
          rw [h2, f3, firstD_cons_comp]
        · show st'.last_cast_time = lastD (castTimes sel ls) (some t)
          rw [h3, f4]
        · show st'.last_timestamp = lastD (castTimes sel ls) (some t)
          rw [h4, f5]

theorem skillEvents_cons (sel : Date) (l : LC) (ls : List LC) :
    skillEvents sel (l :: ls) =
      match lineSkillEvent sel l with
      | some e => e :: skillEvents sel ls
      | none => skillEvents sel ls := by
  simp [skillEvents, List.filterMap_cons]
  cases lineSkillEvent sel l <;> simp

theorem foldUpd_cons (m : List (LC × Nat × Nat)) (e : LC × Nat)
    (evs : List (LC × Nat)) :
    foldUpd m (e :: evs) = foldUpd (updSkill m e.1 e.2) evs := rfl

/-- The skill dictionary after a successful run is the fold of the update
over the registered skill-up events. -/
theorem runSkill (sel : Date) (lines : List LC) : ∀ (st st' : St),
    runLines sel st lines = .ok st' →
    st'.skillups = foldUpd st.skillups (skillEvents sel lines) := by
  induction lines with
  | nil =>
    intro st st' h
    cases h
    rfl
  | cons l ls ih =>
    intro st st' h
    rw [runLines_cons] at h
    cases hp : processLine sel st l with
    | error e => rw [hp] at h; cases h
    | ok st1 =>
      rw [hp] at h
      have hs := procSkillups sel st st1 l hp
      have ihh := ih st1 st' h
      rw [skillEvents_cons]
      cases he : lineSkillEvent sel l with
      | none =>
        rw [he] at hs
        simp only [] at hs
        rw [ihh, hs]
      | some e =>
        rw [he] at hs
        obtain ⟨n, lv⟩ := e
        simp only [] at hs
        show st'.skillups = foldUpd st.skillups ((n, lv) :: skillEvents sel ls)
        rw [foldUpd_cons, ihh, hs]

/-- A successful step with a non-negative computed gap (or none at all)
never decreases either accumulator. -/
theorem stepMono (sel : Date) (st st1 : St) (l : LC)
    (hp : processLine sel st l = .ok st1)
    (hg : ∀ g, stepGap sel st l = some g → 0 ≤ g) :
    st.total_active_time ≤ st1.total_active_time ∧
      st.total_afk_time ≤ st1.total_afk_time := by
  cases hc : lineCastTime sel l with
  | none =>
    obtain ⟨f1, f2, _, _, _⟩ := procCastNone sel st st1 l hp hc
    exact ⟨le_of_eq f1.symm, le_of_eq f2.symm⟩
  | some t =>
    obtain ⟨f1, f2, _, _, _⟩ := procCastSome sel st st1 l t hp hc
    have ha := castUpdate_active_afk st t
    cases hl : st.last_timestamp with
    | none =>
      rw [hl] at ha
      unfold aggStep at ha
      simp only [] at ha
      rw [Prod.mk.injEq] at ha
      rw [f1, f2, ha.1, ha.2]
      exact ⟨le_refl _, le_refl _⟩
    | some p =>
      have hg0 : 0 ≤ toSecs t - toSecs p := by
        apply hg
        unfold stepGap
        rw [hc, hl]
      rw [hl] at ha
      unfold aggStep at ha
      simp only [] at ha
      by_cases hle : toSecs t - toSecs p ≤ 120
      · rw [if_pos hle, Prod.mk.injEq] at ha
        rw [f1, f2, ha.1, ha.2]
        constructor
        · linarith
        · exact le_refl _
      · rw [if_neg hle, Prod.mk.injEq] at ha
        rw [f1, f2, ha.1, ha.2]
        constructor
        · exact le_refl _
        · linarith

/-- Monotonicity of the accumulators over a run all of whose computed gaps
are non-negative. -/
theorem runMono (sel : Date) (lines : List LC) : ∀ (st st' : St),
    runLines sel st lines = .ok st' →
    (∀ g ∈ runGaps sel st lines, 0 ≤ g) →
    st.total_active_time ≤ st'.total_active_time ∧
      st.total_afk_time ≤ st'.total_afk_time := by
  induction lines with
  | nil =>
    intro st st' h _
    cases h
    exact ⟨le_refl _, le_refl _⟩
  | cons l ls ih =>
    intro st st' h hg
    rw [runLines_cons] at h
    cases hp : processLine sel st l with
    | error e => rw [hp] at h; cases h
    | ok st1 =>
      rw [hp] at h
      have hgl : ∀ g ∈ runGaps sel st (l :: ls), 0 ≤ g := hg
      have hrw : runGaps sel st (l :: ls) =
          (stepGap sel st l).toList ++ runGaps sel st1 ls := by
        rw [runGaps, hp]
      rw [hrw] at hgl
      have h1 := stepMono sel st st1 l hp (fun g hgg => hgl g (by
        rw [List.mem_append]
        exact Or.inl (by rw [hgg]; simp [Option.toList])))
      have h2 := ih st1 st' h (fun g hgg => hgl g (by
        rw [List.mem_append]
        exact Or.inr hgg))
      exact ⟨le_trans h1.1 h2.1, le_trans h1.2 h2.2⟩

/-! ### Skill-dictionary lookup lemmas -/

theorem lookup_updSkill_self (m : List (LC × Nat × Nat)) (k : LC) (lvl : Nat) :
    lookupSkill (updSkill m k lvl) k =
      some (match lookupSkill m k with
            | none => (lvl, lvl)
            | some (s, _) => (s, lvl)) := by
  induction m with
  | nil => simp [updSkill, lookupSkill]
  | cons e rest ih =>
    obtain ⟨k', s, ev⟩ := e
    by_cases hk : k' = k
    · subst hk
      simp [updSkill, lookupSkill]
    · simp [updSkill, lookupSkill, hk, ih]

theorem lookup_updSkill_other (m : List (LC × Nat × Nat)) (k0 k : LC)
    (lvl : Nat) (hne : k0 ≠ k) :
    lookupSkill (updSkill m k0 lvl) k = lookupSkill m k := by
  induction m with
  | nil => simp [updSkill, lookupSkill, hne]
  | cons e rest ih =>
    obtain ⟨k', s, ev⟩ := e
    by_cases hk : k' = k0
    · subst hk
      simp [updSkill, lookupSkill, hne]
    · simp [updSkill, lookupSkill, hk, ih]

/-- Reference evolution of one skill record over the levels reported for
that skill, in order: the first level fixes `start`, every later one
overwrites `end`. -/
def trackSpec (cur : Option (Nat × Nat)) : List Nat → Option (Nat × Nat)
  | [] => cur
  | l :: ls =>
    trackSpec
      (match cur with
       | none => some (l, l)
       | some (s, _) => some (s, l)) ls

def levelsFor (k : LC) (evs : List (LC × Nat)) : List Nat :=
  (evs.filter (fun e => decide (e.1 = k))).map (fun e => e.2)

theorem foldUpd_lookup (k : LC) (evs : List (LC × Nat)) :
    ∀ (m : List (LC × Nat × Nat)),
    lookupSkill (foldUpd m evs) k =
      trackSpec (lookupSkill m k) (levelsFor k evs) := by
  induction evs with
  | nil => intro m; rfl
  | cons e evs ih =>
    intro m
    obtain ⟨n, lv⟩ := e
    rw [foldUpd_cons]
    by_cases hnk : n = k
    · subst hnk
      have hlv : levelsFor n ((n, lv) :: evs) = lv :: levelsFor n evs := by
        simp [levelsFor]
      rw [hlv, ih (updSkill m n lv), lookup_updSkill_self]
      cases hm : lookupSkill m n with
      | none => rfl
      | some p =>
        obtain ⟨ps, pe⟩ := p
        rfl
    · have hlv : levelsFor k ((n, lv) :: evs) = levelsFor k evs := by
        simp [levelsFor, hnk]
      rw [hlv, ih (updSkill m n lv), lookup_updSkill_other m n k lv hnk]

theorem trackSpec_some (ls : List Nat) : ∀ (s x : Nat),
    trackSpec (some (s, x)) ls = some (s, ls.getLastD x) := by
  induction ls with
  | nil => intro s x; rfl
  | cons l tl ih =>
    intro s x
    show trackSpec (some (s, l)) tl = _
    rw [ih, List.getLastD_cons]

theorem getLast?_cons_eq (tl : List Nat) : ∀ (s : Nat),
    (s :: tl).getLast? = some (tl.getLastD s) := by
  induction tl with
  | nil => intro s; rfl
  | cons a tl ih =>
    intro s
    rw [List.getLast?_cons_cons, ih, List.getLastD_cons]

theorem trackSpec_first_last (ls : List Nat) (s e : Nat)
    (hh : ls.head? = some s) (hl : ls.getLast? = some e) :
    trackSpec none ls = some (s, e) := by
  cases ls with
  | nil => cases hh
  | cons a tl =>
    have ha : a = s := by
      rw [List.head?_cons] at hh
      injection hh
    subst ha
    rw [getLast?_cons_eq] at hl
    injection hl with h2
    show trackSpec (some (a, a)) tl = _
    rw [trackSpec_some, h2]

/-- Lookup in the final skill dictionary of a successful parse: `start` is
the first reported level for the skill, `end` the last. -/
theorem parseSkillLookup (sel : Date) (lines : List LC) (r : Report) (k : LC)
    (s e : Nat) (hp : parse_log sel lines = .ok r)
    (hh : (skillLevels sel lines k).head? = some s)
    (hl : (skillLevels sel lines k).getLast? = some e) :
    lookupSkill r.skillups k = some (s, e) := by
  obtain ⟨st, hrun, hr⟩ := parse_log_ok_inv sel lines r hp
  have hsk := runSkill sel lines initSt st hrun
  have hrs : r.skillups = st.skillups := by rw [hr]
  rw [hrs, hsk]
  show lookupSkill (foldUpd [] (skillEvents sel lines)) k = _
  rw [foldUpd_lookup]
  exact trackSpec_first_last _ s e hh hl

/-- The gap/threshold rule of one cast step with a previous cast present. -/
theorem castGapRule (sel : Date) (st st' : St) (line : LC) (t2 t1 : DateTime)
    (hp : processLine sel st line = .ok st')
    (hc : lineCastTime sel line = some t2)
    (hl : st.last_timestamp = some t1) :
    (toSecs t2 - toSecs t1 ≤ 120 →
      st'.total_active_time = st.total_active_time + (toSecs t2 - toSecs t1) ∧
        st'.total_afk_time = st.total_afk_time) ∧
      (¬toSecs t2 - toSecs t1 ≤ 120 →
        st'.total_afk_time = st.total_afk_time + (toSecs t2 - toSecs t1) ∧
          st'.total_active_time = st.total_active_time) := by
  obtain ⟨f1, f2, _, _, _⟩ := procCastSome sel st st' line t2 hp hc
  have ha := castUpdate_active_afk st t2
  rw [hl] at ha
  unfold aggStep at ha
  simp only [] at ha
  constructor
  · intro hle
    rw [if_pos hle, Prod.mk.injEq] at ha
    exact ⟨by rw [f1, ha.1], by rw [f2, ha.2]⟩
  · intro hgt
    rw [if_neg hgt, Prod.mk.injEq] at ha
    exact ⟨by rw [f2, ha.2], by rw [f1, ha.1]⟩

/-! ### Concrete dates, timestamps and log lines for the claim instances -/

def dJan1 : Date := ⟨2024, 1, 1⟩

def dJan2 : Date := ⟨2024, 1, 2⟩

def t0800 : DateTime := ⟨dJan1, 8, 0, 0⟩

def t0801 : DateTime := ⟨dJan1, 8, 1, 0⟩

def t0802 : DateTime := ⟨dJan1, 8, 2, 0⟩

def t080201 : DateTime := ⟨dJan1, 8, 2, 1⟩

def tJan2_0800 : DateTime := ⟨dJan2, 8, 0, 0⟩

def lineCastA : LC := "[Mon Jan 01 08:00:00 2024] You begin casting Spell A.".data

def lineCastB60 : LC := "[Mon Jan 01 08:01:00 2024] You begin casting Spell B.".data

def lineCastB121 : LC := "[Mon Jan 01 08:02:01 2024] You begin casting Spell B.".data

def lineCastEarly : LC := "[Mon Jan 01 08:02:00 2024] You begin casting Spell A.".data

def lineHelloJan1 : LC := "[Mon Jan 01 07:00:00 2024] Soandso says hello".data

def lineCastXJan2 : LC := "[Tue Jan 02 08:00:00 2024] You begin casting Spell X.".data

/-- A cast line whose day is a single digit: outside the strict bracket
pattern, but accepted by the lenient cast-path `strptime`. -/
def lineCastYJan1Lenient : LC :=
  "[Mon Jan 1 08:01:00 2024] You begin casting Spell Y.".data

def lineBadMonth : LC := "[Mon Xxx 01 08:00:00 2024] hello there".data

def lineBadWeekday : LC := "[Zzz Jan 01 08:00:00 2024] hello there".data

def lineCastAndExp : LC :=
  "You begin casting while You gain party experience".data

def lineCastNoTs : LC := "You begin casting Spell Z.".data

def lineExpAndSkill : LC :=
  "You gain party experience!! You have become better at Foo! (10)".data

def lineExpNoTs : LC := "You gain party experience!!".data

def lineSkillNoTs : LC := "You have become better at Foo! (7)".data

def fooName : LC := "Foo".data

def lineSkill50 : LC :=
  "[Mon Jan 01 08:00:00 2024] You have become better at Foo! (50)".data

def lineSkill40 : LC :=
  "[Mon Jan 01 08:00:05 2024] You have become better at Foo! (40)".data

def lineCastSkill : LC :=
  "[Mon Jan 01 08:00:00 2024] You begin casting Spell A. You have become better at Foo! (12)".data

/-- The parse state after `lineCastA` from the initial state. -/
def stAfterA : St := ⟨0, 0, some t0800, some t0800, some t0800, [], 0⟩

/-- The parse state after `lineCastA` then `lineCastB60`. -/
def stAfterB : St := ⟨60, 0, some t0800, some t0801, some t0801, [], 0⟩

def rC2short : Report := ⟨0, 0, some t0802, some t0802, [], 0, 1⟩

def rC2long : Report := ⟨-60, 0, some t0802, some t0801, [], 0, 2⟩

def rSingle : Report := ⟨0, 0, some t0800, some t0800, [], 0, 1⟩

def rNoCast : Report := ⟨0, 0, none, none, [], 0, 1⟩

/-! ### The claims -/

/-- C1: For every pair of consecutive cast-attempt events with timestamps
T1 then T2 (both surviving the date filter), the elapsed gap T2 - T1 in
seconds is added in full to `active_seconds` when the gap is at most 120
and to `afk_seconds` when it exceeds 120, with no clamping (the gap is an
arbitrary integer, negative gaps included, added as-is to the bucket the
threshold selects).  In particular two cast lines 60 seconds apart give
`active_seconds = 60`, `afk_seconds = 0`, and two cast lines 121 seconds
apart give `afk_seconds = 121`, `active_seconds = 0`. -/
theorem claim_C1_gap_threshold :
    (∀ (sel : Date) (st st' : St) (line : LC) (t2 t1 : DateTime),
      processLine sel st line = .ok st' →
      lineCastTime sel line = some t2 →
      st.last_timestamp = some t1 →
      (toSecs t2 - toSecs t1 ≤ 120 →
        st'.total_active_time = st.total_active_time + (toSecs t2 - toSecs t1) ∧
          st'.total_afk_time = st.total_afk_time) ∧
        (¬toSecs t2 - toSecs t1 ≤ 120 →
          st'.total_afk_time = st.total_afk_time + (toSecs t2 - toSecs t1) ∧
            st'.total_active_time = st.total_active_time)) ∧
    parse_log dJan1 [lineCastA, lineCastB60] =
      .ok ⟨60, 0, some t0800, some t0801, [], 0, 2⟩ ∧
    parse_log dJan1 [lineCastA, lineCastB121] =
      .ok ⟨0, 121, some t0800, some t080201, [], 0, 2⟩ := by
  refine ⟨?_, rfl, rfl⟩
  intro sel st st' line t2 t1 hp hc hl
  exact castGapRule sel st st' line t2 t1 hp hc hl

/-- Witness for C1: the 60-second step from the state after the first cast
adds exactly 60 seconds to the active bucket and leaves the AFK bucket
untouched. -/
theorem claim_C1_gap_threshold_witness :
    stAfterB.total_active_time =
        stAfterA.total_active_time + (toSecs t0801 - toSecs t0800) ∧
      stAfterB.total_afk_time = stAfterA.total_afk_time :=
  (claim_C1_gap_threshold.1 dJan1 stAfterA stAfterB lineCastB60 t0801 t0800
    rfl rfl rfl).1 (by decide)

/-- C2 counterexample: two cast lines whose timestamps run backwards (the
second is 60 seconds earlier).  After the one-line prefix
`active_seconds = 0`; after both lines `active_seconds = -60`: the
accumulator decreased, so it is not monotone over prefixes. -/
theorem claim_C2_counterexample :
    parse_log dJan1 [lineCastEarly] = .ok rC2short ∧
      parse_log dJan1 [lineCastEarly, lineCastB60] = .ok rC2long ∧
      rC2long.total_active_time < rC2short.total_active_time :=
  ⟨rfl, rfl, by decide⟩

/-- C2 (amended): the accumulators are never explicitly decremented, but a
computed gap is added as-is and can be negative when the log is out of
order.  Over any prefix extension all of whose computed gaps are
non-negative, both accumulators are monotone. -/
theorem claim_C2_monotone_nonneg (sel : Date) (xs ys : List LC) (s1 s2 : St)
    (h1 : runLines sel initSt xs = .ok s1)
    (h2 : runLines sel initSt (xs ++ ys) = .ok s2)
    (hg : ∀ g ∈ runGaps sel s1 ys, 0 ≤ g) :
    s1.total_active_time ≤ s2.total_active_time ∧
      s1.total_afk_time ≤ s2.total_afk_time := by
  rw [runLines_append, h1] at h2
  exact runMono sel ys s1 s2 h2 hg

/-- Witness for the amended C2 at a concrete in-order two-line log. -/
theorem claim_C2_monotone_nonneg_witness :
    stAfterA.total_active_time ≤ stAfterB.total_active_time ∧
      stAfterA.total_afk_time ≤ stAfterB.total_afk_time :=
  claim_C2_monotone_nonneg dJan1 [lineCastA] [lineCastB60] stAfterA stAfterB
    rfl rfl (by decide)

/-- C3 counterexample: a file spanning January 1 and January 2 of 2024,
filtered to January 2.  The third line is a cast attempt dated January 1
with a single-digit day: the strict filter pattern fails on it, so it is
not skipped, while the lenient cast-path parser accepts it.  The gap
between the January-2 cast and this January-1 cast, -86340 seconds, is
added to `active_seconds` — a cross-date gap. -/
theorem claim_C3_counterexample :
    parse_log dJan2 [lineHelloJan1, lineCastXJan2, lineCastYJan1Lenient] =
        .ok ⟨-86340, 0, some tJan2_0800, some t0801, [], 0, 3⟩ ∧
      tJan2_0800.date = dJan2 ∧ t0801.date = dJan1 ∧ dJan1 ≠ dJan2 ∧
      toSecs t0801 - toSecs tJan2_0800 = -86340 :=
  ⟨rfl, rfl, rfl, by decide, by decide⟩

/-- C3 (amended): every line whose leading timestamp matches the strict
bracket pattern and parses to a date other than the selected one is
skipped entirely before event classification — the state is unchanged and
no cast event is registered — so no gap between two strict-pattern casts
on different dates is ever added; but a cast line whose prefix fails the
strict pattern while the lenient cast parser still accepts it can carry
another date and contribute a cross-date gap. -/
theorem claim_C3_date_filter_skip (sel d : Date) (st : St) (line : LC)
    (h1 : lineDate line = .ok (some d)) (h2 : d ≠ sel) :
    processLine sel st line = .ok st ∧ lineCastTime sel line = none := by
  refine ⟨stepSkip sel d st line h1 h2, ?_⟩
  unfold lineCastTime
  rw [h1]
  simp [h2]

/-- Witness for the amended C3: a January-1 line is skipped when January 2
is selected. -/
theorem claim_C3_date_filter_skip_witness :
    processLine dJan2 initSt lineHelloJan1 = .ok initSt ∧
      lineCastTime dJan2 lineHelloJan1 = none :=
  claim_C3_date_filter_skip dJan2 dJan1 initSt lineHelloJan1 rfl (by decide)

/-- C4 counterexample: a line whose bracket prefix matches the coarse
pattern but whose month token `Xxx` is not a month abbreviation makes
`strptime` raise `ValueError`, which propagates out of both
`extract_dates_from_log` and `parse_log` — timestamp extraction is not
raise-free. -/
theorem claim_C4_counterexample :
    extract_dates_from_log [lineBadMonth] = .error () ∧
      parse_log dJan1 [lineBadMonth] = .error () ∧
      coarseMatch lineBadMonth ≠ none :=
  ⟨rfl, rfl, by decide⟩

/-- C4 (amended): timestamp extraction is silent for every line whose
prefix fails the coarse bracket pattern (the line is treated as carrying
no timestamp, with no exception), and the weekday token is never
semantically validated (an arbitrary three-letter weekday parses fine);
but when the coarse pattern matches, an invalid month token — or an
out-of-range day or year — raises to the caller. -/
theorem claim_C4_extraction_silent :
    (∀ line : LC, coarseMatch line = none → lineDate line = .ok none) ∧
      lineDate lineBadWeekday = .ok (some dJan1) ∧
      extract_dates_from_log [lineBadWeekday] = .ok [dJan1] := by
  refine ⟨?_, rfl, rfl⟩
  intro line h
  unfold lineDate
  rw [h]

/-- Witness for the amended C4: a line with no bracket prefix extracts to
"no timestamp" without error. -/
theorem claim_C4_extraction_silent_witness :
    coarseMatch lineExpNoTs = none ∧ lineDate lineExpNoTs = .ok none :=
  ⟨rfl, claim_C4_extraction_silent.1 lineExpNoTs rfl⟩

/-- C5 counterexample: a line containing both the phrase
"You begin casting" and the phrase "You gain party experience", with no
bracket timestamp at all.  Its prefix conforms to no timestamp grammar,
yet the parse does not abort: the experience check `continue`s the line
first and a full Report is produced. -/
theorem claim_C5_counterexample :
    isCastLine lineCastAndExp = true ∧
      castTimestamp lineCastAndExp = .error () ∧
      parse_log dJan1 [lineCastAndExp] = .ok ⟨0, 0, none, none, [], 1, 1⟩ :=
  ⟨rfl, rfl, rfl⟩

/-- C5 (amended): a cast-phrase line with an unparseable bracket prefix
aborts the whole run — no Report is produced — provided the line actually
reaches the cast block: it must survive the date filter and must not
contain the experience phrase (which diverts the line first). -/
theorem claim_C5_malformed_cast_aborts (sel : Date) (xs ys : List LC)
    (line : LC) (s1 : St)
    (hr : runLines sel initSt xs = .ok s1)
    (hs : lineDate line = .ok none ∨ lineDate line = .ok (some sel))
    (he : containsSub expPhrase line = false)
    (hc : isCastLine line = true)
    (ht : castTimestamp line = .error ()) :
    parse_log sel (xs ++ line :: ys) = .error () := by
  apply parse_log_of_error
  rw [runLines_append, hr]
  show runLines sel s1 (line :: ys) = .error ()
  rw [runLines_cons]
  have hstep : processLine sel s1 line = .error () := by
    rw [stepSurvive sel s1 line hs]
    exact bodyCastAbort s1 line he hc ht
  rw [hstep]

/-- Witness for the amended C5: one cast line with no timestamp aborts the
parse. -/
theorem claim_C5_malformed_cast_aborts_witness :
    parse_log dJan1 [lineCastNoTs] = .error () :=
  claim_C5_malformed_cast_aborts dJan1 [] [] lineCastNoTs initSt rfl
    (Or.inl rfl) rfl rfl rfl

/-- C6 counterexample: a line containing both the experience phrase and the
skill-up pattern registers only the experience event — the experience
check `continue`s the line, so the skill-up check never runs and the skill
dictionary stays empty.  The checks are therefore not fully independent. -/
theorem claim_C6_counterexample :
    containsSub expPhrase lineExpAndSkill = true ∧
      skillupSearch lineExpAndSkill = some (fooName, 10) ∧
      parse_log dJan1 [lineExpAndSkill] = .ok ⟨0, 0, none, none, [], 1, 1⟩ :=
  ⟨rfl, rfl, rfl⟩

/-- C6 (amended): ExperienceGain is evaluated first and is exclusive — a
line containing the experience phrase changes only the experience counter
and skips the cast and skill-up checks; the CastAttempt and SkillUp checks
are then independent pattern tests: a line containing both a cast-attempt
substring and the skill-up pattern (and no experience phrase) registers
both events. -/
theorem claim_C6_classification_order :
    (∀ (sel : Date) (st : St) (line : LC),
      (lineDate line = .ok none ∨ lineDate line = .ok (some sel)) →
      containsSub expPhrase line = true →
      processLine sel st line =
        .ok { st with experience_count := st.experience_count + 1 }) ∧
    (∀ (sel : Date) (st : St) (line : LC) (t : DateTime) (n : LC) (l : Nat),
      (lineDate line = .ok none ∨ lineDate line = .ok (some sel)) →
      containsSub expPhrase line = false →
      isCastLine line = true →
      castTimestamp line = .ok t →
      skillupSearch line = some (n, l) →
      processLine sel st line =
        .ok { castUpdate st t with skillups := updSkill st.skillups n l }) := by
  constructor
  · intro sel st line hs he
    rw [stepSurvive sel st line hs]
    exact bodyExpStep st line he
  · intro sel st line t n l hs he hc ht hsk
    rw [stepSurvive sel st line hs]
    exact bodyBothStep st line t n l he hc ht hsk

/-- Witness for the amended C6: one line registers both a cast attempt
(aggregator updated at its timestamp) and a skill-up. -/
theorem claim_C6_classification_order_witness :
    processLine dJan1 initSt lineCastSkill =
      .ok { castUpdate initSt t0800 with
            skillups := updSkill initSt.skillups fooName 12 } :=
  claim_C6_classification_order.2 dJan1 initSt lineCastSkill t0800 fooName 12
    (Or.inr rfl) rfl rfl rfl rfl

/-- C7 counterexample: two lines with no parseable leading timestamp; the
first increments the experience count and the second records a skill-up —
classification of these two categories does not require a timestamp. -/
theorem claim_C7_counterexample :
    coarseMatch lineExpNoTs = none ∧
      coarseMatch lineSkillNoTs = none ∧
      parse_log dJan1 [lineExpNoTs, lineSkillNoTs] =
        .ok ⟨0, 0, none, none, [(fooName, 7, 7)], 1, 2⟩ :=
  ⟨rfl, rfl, rfl⟩

/-- C7 (amended): only cast-attempt classification requires a timestamp;
a line lacking a parseable leading bracketed timestamp is still classified
as an experience gain (counter incremented) or as a skill-up (record
updated) when the respective pattern matches. -/
theorem claim_C7_no_timestamp_classification :
    (∀ (sel : Date) (st : St) (line : LC),
      coarseMatch line = none →
      containsSub expPhrase line = true →
      processLine sel st line =
        .ok { st with experience_count := st.experience_count + 1 }) ∧
    (∀ (sel : Date) (st : St) (line : LC) (n : LC) (l : Nat),
      coarseMatch line = none →
      containsSub expPhrase line = false →
      isCastLine line = false →
      skillupSearch line = some (n, l) →
      processLine sel st line =
        .ok { st with skillups := updSkill st.skillups n l }) := by
  constructor
  · intro sel st line hcm he
    have hld : lineDate line = .ok none := by
      unfold lineDate
      rw [hcm]
    rw [stepSurvive sel st line (Or.inl hld)]
    exact bodyExpStep st line he
  · intro sel st line n l hcm he hc hsk
    have hld : lineDate line = .ok none := by
      unfold lineDate
      rw [hcm]
    rw [stepSurvive sel st line (Or.inl hld)]
    exact bodySkillOnlyStep st line n l he hc hsk

/-- Witness for the amended C7 at the two timestamp-less lines. -/
theorem claim_C7_no_timestamp_classification_witness :
    processLine dJan1 initSt lineExpNoTs =
        .ok { initSt with experience_count := initSt.experience_count + 1 } ∧
      processLine dJan1 initSt lineSkillNoTs =
        .ok { initSt with skillups := updSkill initSt.skillups fooName 7 } :=
  ⟨claim_C7_no_timestamp_classification.1 dJan1 initSt lineExpNoTs rfl rfl,
   claim_C7_no_timestamp_classification.2 dJan1 initSt lineSkillNoTs fooName 7
     rfl rfl rfl rfl⟩

/-- C8: skill tracking semantics.  A first skill-up for a name inserts a
record with start and end both equal to the reported level; a later
skill-up for the same name updates only the end.  Consequently, after a
successful parse, a skill's record holds the level of the first and of the
last skill-up line for it in file order.  No validation against decreasing
levels is performed: the concrete conjunct shows a file reporting level 50
then level 40 yields the record (50, 40), end below start. -/
theorem claim_C8_skill_tracking :
    (∀ (m : List (LC × Nat × Nat)) (k : LC) (l : Nat),
      lookupSkill m k = none →
      lookupSkill (updSkill m k l) k = some (l, l)) ∧
    (∀ (m : List (LC × Nat × Nat)) (k : LC) (l s e : Nat),
      lookupSkill m k = some (s, e) →
      lookupSkill (updSkill m k l) k = some (s, l)) ∧
    (∀ (sel : Date) (lines : List LC) (r : Report) (k : LC) (s e : Nat),
      parse_log sel lines = .ok r →
      (skillLevels sel lines k).head? = some s →
      (skillLevels sel lines k).getLast? = some e →
      lookupSkill r.skillups k = some (s, e)) ∧
    parse_log dJan1 [lineSkill50, lineSkill40] =
      .ok ⟨0, 0, none, none, [(fooName, 50, 40)], 0, 2⟩ := by
  refine ⟨?_, ?_, ?_, rfl⟩
  · intro m k l hm
    rw [lookup_updSkill_self, hm]
  · intro m k l s e hm
    rw [lookup_updSkill_self, hm]
  · intro sel lines r k s e hp hh hl
    exact parseSkillLookup sel lines r k s e hp hh hl

/-- Witness for C8: on the decreasing two-line log, the final record for
the skill is (50, 40): start from the first line, end from the last. -/
theorem claim_C8_skill_tracking_witness :
    lookupSkill [(fooName, 50, 40)] fooName = some (50, 40) :=
  claim_C8_skill_tracking.2.2.1 dJan1 [lineSkill50, lineSkill40]
    ⟨0, 0, none, none, [(fooName, 50, 40)], 0, 2⟩ fooName 50 40 rfl rfl rfl

/-- C9: a file whose run registers exactly one cast-attempt event (after
the date filter) yields zero active and AFK time — no gap is computed on a
lone event — and first and last cast time both equal that event's
timestamp. -/
theorem claim_C9_single_cast (sel : Date) (lines : List LC) (r : Report)
    (t : DateTime) (hp : parse_log sel lines = .ok r)
    (hc : castTimes sel lines = [t]) :
    r.total_active_time = 0 ∧ r.total_afk_time = 0 ∧
      r.first_cast_time = some t ∧ r.last_cast_time = some t ∧
      r.first_cast_time = r.last_cast_time := by
  obtain ⟨st, hrun, hr⟩ := parse_log_ok_inv sel lines r hp
  obtain ⟨h1, h2, h3, _⟩ := runCast sel lines initSt st hrun
  rw [hc] at h1 h2 h3
  simp only [initSt] at h1 h2 h3
  simp [aggFold, aggStep, firstD, lastD, Prod.mk.injEq] at h1 h2 h3
  subst hr
  exact ⟨h1.1, h1.2, h2, h3, by rw [h2, h3]⟩

/-- Witness for C9 on a one-line log holding a single cast attempt. -/
theorem claim_C9_single_cast_witness :
    rSingle.total_active_time = 0 ∧ rSingle.total_afk_time = 0 ∧
      rSingle.first_cast_time = some t0800 ∧
      rSingle.last_cast_time = some t0800 ∧
      rSingle.first_cast_time = rSingle.last_cast_time :=
  claim_C9_single_cast dJan1 [lineCastA] rSingle t0800 rfl rfl

/-- C10: a file whose run registers no cast-attempt event at all (after
the date filter) yields an unset first and last cast time together with
zero active and AFK seconds. -/
theorem claim_C10_no_casts (sel : Date) (lines : List LC) (r : Report)
    (hp : parse_log sel lines = .ok r)
    (hc : castTimes sel lines = []) :
    r.first_cast_time = none ∧ r.last_cast_time = none ∧
      r.total_active_time = 0 ∧ r.total_afk_time = 0 := by
  obtain ⟨st, hrun, hr⟩ := parse_log_ok_inv sel lines r hp
  obtain ⟨h1, h2, h3, _⟩ := runCast sel lines initSt st hrun
  rw [hc] at h1 h2 h3
  simp only [initSt] at h1 h2 h3
  simp [aggFold, firstD, lastD, Prod.mk.injEq] at h1 h2 h3
  subst hr
  exact ⟨h2, h3, h1.1, h1.2⟩

/-- Witness for C10 on a one-line log with no cast attempt. -/
theorem claim_C10_no_casts_witness :
    rNoCast.first_cast_time = none ∧ rNoCast.last_cast_time = none ∧
      rNoCast.total_active_time = 0 ∧ rNoCast.total_afk_time = 0 :=
  claim_C10_no_casts dJan1 [lineHelloJan1] rNoCast rfl rfl
